import Mathlib

/-!
Verification of the KurisuAssistant Windows client (TypeScript sources)
against its natural-language specification.

The development shallowly embeds the parts of the client the claims are
about:

* the conversation store (`src/store/conversationStore.ts`): message list
  operations `addMessage` / `updateLastMessage` and the paginated
  `loadMoreMessages` loader;
* the chat-stream reconciler, i.e. the body of `handleSend` in the chat
  widget (the richer of the two chat widget revisions, the one with
  thinking-channel support and placeholder reuse);
* the sequential typing presenter (`startSequentialTypingEffect`);
* the newline-delimited JSON splitter inside `apiClient.chatStream`.

JavaScript strings are modelled as Lean `String`s (for the store and the
reconciler) and as `List Char` (for the splitter and the presenter, where
index arithmetic dominates).  JavaScript truthiness of optional strings
(`undefined` and `""` are falsy) is modelled explicitly.
-/

namespace Kurisu

/-- Models the JavaScript expression `x || ''` on an optional string. -/
def optStr : Option String → String
  | none => ""
  | some s => s

/-- JavaScript truthiness of an optional string: `undefined` and `""` are
falsy, every other string is truthy. -/
def strTruthy : Option String → Bool
  | none => false
  | some s => s ≠ ""

/-- JavaScript truthiness of `string | null`: `null` and `""` are falsy. -/
def roleTruthy : Option String → Bool
  | none => false
  | some r => r ≠ ""

/-- JavaScript falsiness of `number | null`: `null` and `0` are falsy. -/
def optNatFalsy : Option Nat → Bool
  | none => true
  | some n => n == 0

/-- `listPref xs ys` states that `xs` is a leading segment of `ys`
(the displayed/target relation used by the typing presenter). -/
def listPref (xs ys : List Char) : Prop := ys.take xs.length = xs

instance (xs ys : List Char) : Decidable (listPref xs ys) :=
  inferInstanceAs (Decidable (ys.take xs.length = xs))

/-- The `Message` shape from `src/api/types.ts`: a free-form role tag,
content text, an optional thinking channel and optional image ids. -/
structure Message where
  role : String
  content : String
  thinking : Option String := none
  images : Option (List String) := none
deriving DecidableEq

/-- The `Conversation` summary from `src/api/types.ts` (fields the store
claims touch). -/
structure Conversation where
  id : Nat
  title : String
deriving DecidableEq

/-- The paged `ConversationDetail` payload returned by
`apiClient.getConversation` (fields used by `loadMoreMessages`). -/
structure ConversationPage where
  messages : List Message
  total_messages : Nat
  limit : Nat
  has_more : Bool
deriving DecidableEq

/-- The Zustand `ConversationState` of `src/store/conversationStore.ts`. -/
structure ConversationState where
  conversations : List Conversation
  currentConversation : Option Conversation
  messages : List Message
  models : List String
  selectedModel : String
  totalMessages : Nat
  hasMoreMessages : Bool
  messagesOffset : Nat
  isLoadingMessages : Bool
deriving DecidableEq

/-- Core of the store action `updateLastMessage`: copy the list and, when it
is non-empty, replace the last element by a copy whose `content` field is
the given string (`{ ...lastMessage, content }`). -/
def setLastContent (content : String) (msgs : List Message) : List Message :=
  match msgs.getLast? with
  | none => msgs
  | some last => msgs.dropLast ++ [{ last with content := content }]

/-- The store action `addMessage`: append one message. -/
def addMessage (m : Message) (s : ConversationState) : ConversationState :=
  { s with messages := s.messages ++ [m] }

/-- The store action `updateLastMessage(content)`. -/
def updateLastMessage (content : String) (s : ConversationState) : ConversationState :=
  { s with messages := setLastContent content s.messages }

/-- The synchronous prefix of `loadMoreMessages` up to its first `await`:
the guard (`isLoadingMessages || !hasMoreMessages || !currentConversation`)
and, when it passes, setting the `isLoadingMessages` flag.  Returns the
state after this prefix and whether the call proceeded past the guard. -/
def loadMoreBegin (s : ConversationState) : ConversationState × Bool :=
  if s.isLoadingMessages || !s.hasMoreMessages || s.currentConversation.isNone then
    (s, false)
  else
    ({ s with isLoadingMessages := true }, true)

/-- The store action `loadMoreMessages`, with the backend call abstracted as
`fetch conversationId limit offset` returning `some page` on success and
`none` on a thrown error (the `catch` branch only clears the flag). -/
def loadMoreMessages (fetch : Nat → Nat → Nat → Option ConversationPage)
    (s : ConversationState) : ConversationState :=
  let begun := loadMoreBegin s
  if begun.2 then
    match s.currentConversation with
    | none => begun.1
    | some conv =>
      match fetch conv.id 50 s.messagesOffset with
      | some data =>
        { begun.1 with
            messages := data.messages ++ begun.1.messages,
            hasMoreMessages := data.has_more,
            messagesOffset := begun.1.messagesOffset + data.messages.length,
            isLoadingMessages := false }
      | none => { begun.1 with isLoadingMessages := false }
  else begun.1

/-- One tick of `startSequentialTypingEffect`: if displayed thinking is
shorter than its target, reveal up to two more thinking characters
(`slice(0, prev.length + 2)`) and leave content alone; otherwise, if
displayed content is shorter than its target, reveal up to two more content
characters; otherwise change nothing (the interval is cleared). -/
def typingTick (streamingThinking streamingContent displayedThinking displayedContent :
    List Char) : List Char × List Char :=
  if displayedThinking.length < streamingThinking.length then
    (streamingThinking.take (displayedThinking.length + 2), displayedContent)
  else if displayedContent.length < streamingContent.length then
    (displayedThinking, streamingContent.take (displayedContent.length + 2))
  else
    (displayedThinking, displayedContent)

/-- A streamed message fragment (`chunk.message`): role tag plus optional
content and thinking deltas (optional because the JSON may omit them). -/
structure MessageFragment where
  role : String
  content : Option String := none
  thinking : Option String := none
deriving DecidableEq

/-- The `StreamChunk` shape from `src/api/types.ts` (fields `handleSend`
inspects). -/
structure StreamChunk where
  message : Option MessageFragment := none
  conversation_id : Option Nat := none
  done : Bool := false
deriving DecidableEq

/-- A chunk carrying only a message fragment. -/
def chunkOfFrag (f : MessageFragment) : StreamChunk := { message := some f }

/-- The terminating `{"done":true}` chunk. -/
def doneChunk : StreamChunk := { done := true }

/-- The reconciler state carried across iterations of the `for await` loop
in `handleSend`: the store message list plus the local variables
`currentRole`, `hasPlaceholder`, `accumulatedContent`,
`accumulatedThinking`, `streamConversationId`, and whether the loop has hit
`break`. -/
structure RecState where
  msgs : List Message
  currentRole : Option String
  hasPlaceholder : Bool
  accumulatedContent : String
  accumulatedThinking : String
  streamConversationId : Option Nat
  finished : Bool
deriving DecidableEq

/-- State of `handleSend` at loop entry: the user message and an empty
assistant placeholder have been appended, the accumulators are empty. -/
def handleSendInit (prior : List Message) (userMsg : Message) (convId : Option Nat) :
    RecState :=
  { msgs := prior ++ [userMsg, { role := "assistant", content := "" }],
    currentRole := none,
    hasPlaceholder := true,
    accumulatedContent := "",
    accumulatedThinking := "",
    streamConversationId := convId,
    finished := false }

/-- The `if (chunk.conversation_id && !streamConversationId)` branch:
adopt the first truthy conversation id. -/
def convAssign (s : RecState) (chunk : StreamChunk) : RecState :=
  match chunk.conversation_id with
  | some cid =>
    if cid != 0 && optNatFalsy s.streamConversationId then
      { s with streamConversationId := some cid }
    else s
  | none => s

/-- The `if (chunk.done)` branch: when either accumulator is non-empty,
write the accumulated content back onto the last message, then leave the
loop. -/
def finishDone (s : RecState) : RecState :=
  if s.accumulatedContent != "" || s.accumulatedThinking != "" then
    { s with msgs := setLastContent s.accumulatedContent s.msgs, finished := true }
  else
    { s with finished := true }

/-- Role-change branch of `handleSend`: finalize the in-progress message
with the accumulated content, append a fresh empty message carrying the new
role, and reset both accumulators (content to this fragment's delta). -/
def startNewRole (m : MessageFragment) (s : RecState) : RecState :=
  { s with
      msgs := setLastContent s.accumulatedContent s.msgs ++
        [{ role := m.role, content := "" }],
      currentRole := some m.role,
      accumulatedContent := optStr m.content,
      accumulatedThinking := "" }

/-- First-fragment branch of `handleSend` (taken whenever `currentRole` is
still falsy): adopt the fragment's role and content delta; fill the pending
placeholder if one exists, otherwise append a fresh empty message. -/
def firstFragment (m : MessageFragment) (s : RecState) : RecState :=
  let s1 := { s with
      currentRole := some m.role,
      accumulatedContent := optStr m.content,
      accumulatedThinking := "" }
  if s.hasPlaceholder then
    { s1 with msgs := setLastContent (optStr m.content) s1.msgs, hasPlaceholder := false }
  else
    { s1 with msgs := s1.msgs ++ [{ role := m.role, content := "" }] }

/-- Same-role branch of `handleSend`: append a truthy content delta to
`accumulatedContent` (the store is not touched until the seal). -/
def sameRoleContent (m : MessageFragment) (s : RecState) : RecState :=
  if strTruthy m.content then
    { s with accumulatedContent := s.accumulatedContent ++ optStr m.content }
  else s

/-- Dispatch on `currentRole` truthiness exactly as the chained
`if (currentRole && role !== currentRole) ... else if (!currentRole) ...`
does: a `null` or `""` current role always lands in the first-fragment
branch. -/
def contentStep (m : MessageFragment) (s : RecState) : RecState :=
  match s.currentRole with
  | some r =>
    if r ≠ "" then
      if m.role ≠ r then startNewRole m s else sameRoleContent m s
    else firstFragment m s
  | none => firstFragment m s

/-- The unconditional thinking accumulation at the end of the message
branch: a truthy thinking delta is appended to `accumulatedThinking`. -/
def appendThinking (m : MessageFragment) (s : RecState) : RecState :=
  if strTruthy m.thinking then
    { s with accumulatedThinking := s.accumulatedThinking ++ optStr m.thinking }
  else s

/-- One iteration of the `for await (const chunk of stream)` loop body of
`handleSend` (store-visible state only; pure display updates are not part
of the reconciler state). -/
def handleSendStep (s : RecState) (chunk : StreamChunk) : RecState :=
  if s.finished then s
  else
    let s1 := convAssign s chunk
    if chunk.done then finishDone s1
    else
      match chunk.message with
      | none => s1
      | some m => appendThinking m (contentStep m s1)

/-- Run the reconciler over a whole chunk sequence. -/
def handleSendRun (s : RecState) (chunks : List StreamChunk) : RecState :=
  chunks.foldl handleSendStep s

/-- The error text built in the `catch` branch:
`'Error: ' + (err.message || 'Failed to send message')`. -/
def errText (emsg : Option String) : String :=
  "Error: " ++ (if strTruthy emsg then optStr emsg else "Failed to send message")

/-- The `catch` branch of `handleSend`: guarded by the length of the
`messages` array captured by the React closure (the store snapshot from the
render that created `handleSend`, i.e. before the user message was added),
it overwrites the last message's content with the error text. -/
def handleSendCatch (snapshot : List Message) (emsg : Option String) (s : RecState) :
    RecState :=
  if snapshot.length > 0 then
    { s with msgs := setLastContent (errText emsg) s.msgs }
  else s

/-- A full send that processes `chunks` and then hits a transport error. -/
def handleSendRunWithError (prior : List Message) (userMsg : Message)
    (convId : Option Nat) (chunks : List StreamChunk) (emsg : Option String) : RecState :=
  handleSendCatch prior emsg (handleSendRun (handleSendInit prior userMsg convId) chunks)

/-- Concatenation, in arrival order, of the content deltas of a fragment
list, a missing or empty delta contributing the empty string (the value the
specification says the reconciled content must equal). -/
def concatDeltas : List MessageFragment → String
  | [] => ""
  | f :: rest => optStr f.content ++ concatDeltas rest

/-- Concatenation, in arrival order, of the thinking deltas of a fragment
list, a missing or empty delta contributing the empty string. -/
def concatThinks : List MessageFragment → String
  | [] => ""
  | f :: rest => optStr f.thinking ++ concatThinks rest

/-- Split a character stream at every newline.  Mirrors the JavaScript
`buffer.split('\n')`: the result is never empty, and a trailing newline
yields a trailing empty segment. -/
def splitNl : List Char → List (List Char)
  | [] => [[]]
  | c :: cs =>
    if c = '\n' then [] :: splitNl cs
    else
      match splitNl cs with
      | [] => [[c]]
      | l :: ls => (c :: l) :: ls

/-- Glue a buffered segment onto the first segment of a later split. -/
def joinHead (b : List Char) : List (List Char) → List (List Char)
  | [] => [b]
  | h :: t => (b ++ h) :: t

/-- Per-line emission of `chatStream`: a line that is non-empty after
trimming is handed to `JSON.parse` (abstracted as `parse`, `none` on a
parse failure, which is logged and skipped); whitespace-only lines are
skipped without a parse attempt. -/
def emitLine {α : Type} (parse : List Char → Option α) (l : List Char) : Option α :=
  if l.any (fun c => !c.isWhitespace) then parse l else none

/-- One `reader.read()` iteration of `chatStream`: append the decoded text
to the buffer, split on newlines, keep the final segment as the new buffer
(`buffer = lines.pop() || ''`) and emit every completed line. -/
def chatStreamStep {α : Type} (parse : List Char → Option α)
    (st : List Char × List α) (r : List Char) : List Char × List α :=
  let parts := splitNl (st.1 ++ r)
  (parts.getLastD [], st.2 ++ parts.dropLast.filterMap (emitLine parse))

/-- The whole `chatStream` generator over a list of network reads: process
every read, then attempt a best-effort parse of whatever remains in the
buffer when the stream ends. -/
def chatStream {α : Type} (parse : List Char → Option α)
    (reads : List (List Char)) : List α :=
  let st := reads.foldl (chatStreamStep parse) ([], [])
  st.2 ++ (emitLine parse st.1).toList

/-! Concrete fixtures used by the witness theorems. -/

/-- A sample conversation summary. -/
def exConv : Conversation := { id := 1, title := "chat" }

/-- A sample user message. -/
def exMsgA : Message := { role := "user", content := "hi" }

/-- A sample assistant message. -/
def exMsgB : Message := { role := "assistant", content := "yo" }

/-- A sample fetched page (the exhausted last page). -/
def exPage : ConversationPage :=
  { messages := [exMsgB], total_messages := 2, limit := 50, has_more := false }

/-- A backend stub that always returns `exPage`. -/
def exFetch : Nat → Nat → Nat → Option ConversationPage := fun _ _ _ => some exPage

/-- A sample store state ready for pagination. -/
def exState : ConversationState :=
  { conversations := [exConv], currentConversation := some exConv,
    messages := [exMsgA], models := ["m"], selectedModel := "m",
    totalMessages := 2, hasMoreMessages := true, messagesOffset := 50,
    isLoadingMessages := false }

/-- `exState` with a load already in flight. -/
def exLoadingState : ConversationState := { exState with isLoadingMessages := true }

/-! General lemmas shared by several claim theorems. -/

theorem setLastContent_concat (c : String) (ms : List Message) (m : Message) :
    setLastContent c (ms ++ [m]) = ms ++ [{ m with content := c }] := by
  simp [setLastContent]

theorem listPref_take (n : Nat) (l : List Char) : listPref (l.take n) l := by
  unfold listPref
  rcases Nat.le_total n l.length with h | h
  · simp [List.length_take, Nat.min_eq_left h]
  · simp [List.length_take, Nat.min_eq_right h, List.take_of_length_le h]

theorem listPref_length_le {xs ys : List Char} (h : listPref xs ys) :
    xs.length ≤ ys.length := by
  have := congrArg List.length h
  simp [List.length_take] at this
  omega

theorem listPref_append_right {xs ys : List Char} (zs : List Char)
    (h : listPref xs ys) : listPref xs (ys ++ zs) := by
  unfold listPref at h ⊢
  have hle : xs.length ≤ ys.length := listPref_length_le h
  rw [List.take_append_of_le_length hle, h]

theorem str_append_empty_left {s t : String} (h : s ++ t = "") : s = "" := by
  have hl := congrArg String.length h
  rw [String.length_append, String.length_empty] at hl
  have h0 : s.length = 0 := by omega
  cases s with
  | mk data =>
    cases data with
    | nil => rfl
    | cons a l => simp [String.length] at h0

theorem getLast?_append_pair {l : List Message} {a b : Message} :
    (l ++ [a, b]).getLast? = some b := by
  rw [show l ++ [a, b] = (l ++ [a]) ++ [b] by simp, List.getLast?_concat]

theorem setLastContent_append_pair (c : String) (l : List Message) (a b : Message) :
    setLastContent c (l ++ [a, b]) = l ++ [a, { b with content := c }] := by
  rw [show l ++ [a, b] = (l ++ [a]) ++ [b] by simp, setLastContent_concat]
  simp

theorem convAssign_none {s : RecState} {c : StreamChunk}
    (h : c.conversation_id = none) : convAssign s c = s := by
  simp [convAssign, h]

theorem handleSendStep_frag (s : RecState) (m : MessageFragment)
    (hfin : s.finished = false) :
    handleSendStep s (chunkOfFrag m) = appendThinking m (contentStep m s) := by
  simp [handleSendStep, hfin, chunkOfFrag, convAssign]

theorem handleSendStep_done (s : RecState) (hfin : s.finished = false) :
    handleSendStep s doneChunk = finishDone s := by
  simp [handleSendStep, hfin, doneChunk, convAssign]

theorem sameRoleContent_eq (m : MessageFragment) (s : RecState) :
    sameRoleContent m s =
      { s with accumulatedContent := s.accumulatedContent ++ optStr m.content } := by
  unfold sameRoleContent
  cases hc : m.content with
  | none => simp [strTruthy, hc, optStr, String.append_empty]
  | some c =>
    by_cases hce : c = ""
    · simp [strTruthy, hc, hce, optStr, String.append_empty]
    · simp [strTruthy, hc, hce, optStr]

theorem appendThinking_eq (m : MessageFragment) (s : RecState) :
    appendThinking m s =
      { s with accumulatedThinking := s.accumulatedThinking ++ optStr m.thinking } := by
  unfold appendThinking
  cases ht : m.thinking with
  | none => simp [strTruthy, ht, optStr, String.append_empty]
  | some t =>
    by_cases hte : t = ""
    · simp [strTruthy, ht, hte, optStr, String.append_empty]
    · simp [strTruthy, ht, hte, optStr]

theorem setLastContent_length (c : String) (ms : List Message) :
    (setLastContent c ms).length = ms.length := by
  cases hm : ms.getLast? with
  | none => simp [setLastContent, hm]
  | some last =>
    have hne : ms ≠ [] := by
      intro h
      rw [h] at hm
      simp at hm
    have hpos : 0 < ms.length := List.length_pos.mpr hne
    simp [setLastContent, hm, List.length_dropLast]
    omega

theorem setLastContent_get?_frame (c : String) (ms : List Message) (i : Nat)
    (h : i + 1 < ms.length) :
    (setLastContent c ms).get? i = ms.get? i := by
  cases hm : ms.getLast? with
  | none => simp [setLastContent, hm]
  | some last =>
    have hne : ms ≠ [] := by
      intro hnil
      rw [hnil] at hm
      simp at hm
    have hdrop : i < ms.dropLast.length := by
      rw [List.length_dropLast]
      omega
    rw [setLastContent, hm, List.get?_append hdrop]
    conv_rhs => rw [← List.dropLast_append_getLast hne]
    rw [List.get?_append hdrop]

theorem setLastContent_getLast_content (c : String) (ms : List Message)
    (h : ms ≠ []) :
    ((setLastContent c ms).getLast?).map Message.content = some c := by
  obtain ⟨last, hl⟩ : ∃ l, ms.getLast? = some l := by
    cases hm : ms.getLast? with
    | none => exact absurd (List.getLast?_eq_none_iff.mp hm) h
    | some l => exact ⟨l, rfl⟩
  simp [setLastContent, hl, List.getLast?_concat]

theorem setLastContent_dropLast (c : String) (ms : List Message) :
    (setLastContent c ms).dropLast = ms.dropLast := by
  cases hm : ms.getLast? with
  | none => simp [setLastContent, hm]
  | some last => simp [setLastContent, hm, List.dropLast_concat]

theorem convAssign_msgs (s : RecState) (c : StreamChunk) :
    (convAssign s c).msgs = s.msgs := by
  unfold convAssign
  cases c.conversation_id with
  | none => rfl
  | some cid =>
    dsimp only
    split <;> rfl

theorem convAssign_keeps (s : RecState) (c : StreamChunk) :
    (convAssign s c).currentRole = s.currentRole ∧
    (convAssign s c).hasPlaceholder = s.hasPlaceholder ∧
    (convAssign s c).accumulatedContent = s.accumulatedContent ∧
    (convAssign s c).accumulatedThinking = s.accumulatedThinking ∧
    (convAssign s c).finished = s.finished := by
  unfold convAssign
  cases c.conversation_id with
  | none => exact ⟨rfl, rfl, rfl, rfl, rfl⟩
  | some cid =>
    dsimp only
    refine ⟨?_, ?_, ?_, ?_, ?_⟩ <;> (split <;> rfl)

/-- The message list after one reconciler step extends the old one: it is
at least as long, and every position other than the old last one is
untouched. -/
theorem handleSendStep_msgs_frame (s : RecState) (c : StreamChunk) :
    s.msgs.length ≤ (handleSendStep s c).msgs.length ∧
    ∀ i, i + 1 < s.msgs.length → (handleSendStep s c).msgs.get? i = s.msgs.get? i := by
  have hframe : ∀ new : List Message,
      (new = s.msgs ∨ (∃ x, new = setLastContent x s.msgs) ∨
       (∃ x m, new = setLastContent x s.msgs ++ [m]) ∨ (∃ m, new = s.msgs ++ [m])) →
      s.msgs.length ≤ new.length ∧
      ∀ i, i + 1 < s.msgs.length → new.get? i = s.msgs.get? i := by
    intro new hcase
    rcases hcase with h | ⟨x, h⟩ | ⟨x, m, h⟩ | ⟨m, h⟩ <;> subst h
    · exact ⟨le_refl _, fun i _ => rfl⟩
    · exact ⟨(setLastContent_length x s.msgs).ge,
        fun i hi => setLastContent_get?_frame x s.msgs i hi⟩
    · constructor
      · rw [List.length_append, setLastContent_length]
        simp
      · intro i hi
        have hlt : i < (setLastContent x s.msgs).length := by
          rw [setLastContent_length]
          omega
        rw [List.get?_append hlt, setLastContent_get?_frame x s.msgs i hi]
    · constructor
      · simp
      · intro i hi
        have hlt : i < s.msgs.length := by omega
        rw [List.get?_append hlt]
  apply hframe
  unfold handleSendStep
  by_cases hfin : s.finished
  · simp [hfin]
  · simp only [hfin, Bool.false_eq_true, if_false]
    have hmsgs := convAssign_msgs s c
    by_cases hdone : c.done
    · simp only [hdone, if_true]
      unfold finishDone
      split
      · right
        left
        exact ⟨_, by rw [hmsgs]⟩
      · left
        exact hmsgs
    · simp only [hdone, Bool.false_eq_true, if_false]
      cases hm : c.message with
      | none => left; exact hmsgs
      | some m =>
        dsimp only
        rw [appendThinking_eq]
        show (contentStep m (convAssign s c)).msgs = _ ∨ _
        have hgen : ∀ t : RecState, t.msgs = s.msgs →
            ((contentStep m t).msgs = s.msgs ∨
             (∃ x, (contentStep m t).msgs = setLastContent x s.msgs) ∨
             (∃ x mm, (contentStep m t).msgs = setLastContent x s.msgs ++ [mm]) ∨
             (∃ mm, (contentStep m t).msgs = s.msgs ++ [mm])) := by
          intro t ht
          obtain ⟨tm, tcr, thp, tac, tat, tsc, tf⟩ := t
          simp only at ht
          subst ht
          unfold contentStep
          cases tcr with
          | none =>
            unfold firstFragment
            dsimp only
            cases thp with
            | true =>
              right; left
              exact ⟨_, rfl⟩
            | false =>
              right; right; right
              exact ⟨_, rfl⟩
          | some r =>
            dsimp only
            split_ifs with h1 h2
            · right; right; left
              unfold startNewRole
              exact ⟨_, _, rfl⟩
            · rw [sameRoleContent_eq]
              left
              rfl
            · unfold firstFragment
              dsimp only
              cases thp with
              | true =>
                right; left
                exact ⟨_, rfl⟩
              | false =>
                right; right; right
                exact ⟨_, rfl⟩
        exact hgen (convAssign s c) hmsgs

/-- Running the reconciler never shortens the message list. -/
theorem handleSendRun_length_mono (chunks : List StreamChunk) (s : RecState) :
    s.msgs.length ≤ (handleSendRun s chunks).msgs.length := by
  induction chunks generalizing s with
  | nil => exact le_refl _
  | cons c rest ih =>
    have h1 := (handleSendStep_msgs_frame s c).1
    have h2 := ih (handleSendStep s c)
    calc s.msgs.length ≤ (handleSendStep s c).msgs.length := h1
      _ ≤ (handleSendRun (handleSendStep s c) rest).msgs.length := h2
      _ = (handleSendRun s (c :: rest)).msgs.length := by simp [handleSendRun]

theorem sameRoleRun (r : String) (hr : r ≠ "") (frags : List MessageFragment)
    (hall : ∀ f ∈ frags, f.role = r) (s : RecState)
    (hrole : s.currentRole = some r) (hfin : s.finished = false) :
    handleSendRun s (frags.map chunkOfFrag) =
      { s with
          accumulatedContent := s.accumulatedContent ++ concatDeltas frags,
          accumulatedThinking := s.accumulatedThinking ++ concatThinks frags } := by
  induction frags generalizing s with
  | nil =>
    simp [handleSendRun, concatDeltas, concatThinks, String.append_empty]
  | cons f rest ih =>
    have hf : f.role = r := hall f (List.mem_cons_self f rest)
    have hrest : ∀ g ∈ rest, g.role = r := fun g hg => hall g (List.mem_cons_of_mem f hg)
    have hstep : handleSendStep s (chunkOfFrag f) =
        { s with
            accumulatedContent := s.accumulatedContent ++ optStr f.content,
            accumulatedThinking := s.accumulatedThinking ++ optStr f.thinking } := by
      rw [handleSendStep_frag s f hfin]
      have hcs : contentStep f s =
          { s with accumulatedContent := s.accumulatedContent ++ optStr f.content } := by
        simp [contentStep, hrole, hr, hf, sameRoleContent_eq]
      rw [hcs, appendThinking_eq]
    have hrun : handleSendRun s (List.map chunkOfFrag (f :: rest)) =
        handleSendRun (handleSendStep s (chunkOfFrag f)) (rest.map chunkOfFrag) := by
      simp [handleSendRun]
    have ih' := ih hrest
      { s with
          accumulatedContent := s.accumulatedContent ++ optStr f.content,
          accumulatedThinking := s.accumulatedThinking ++ optStr f.thinking }
      hrole hfin
    rw [hrun, hstep, ih']
    simp [concatDeltas, concatThinks, String.append_assoc]

theorem splitNl_ne_nil (l : List Char) : splitNl l ≠ [] := by
  induction l with
  | nil => simp [splitNl]
  | cons c cs ih =>
    unfold splitNl
    by_cases hc : c = '\n'
    · simp [hc]
    · simp only [hc, if_false]
      cases h : splitNl cs with
      | nil => simp
      | cons a l => simp

theorem mem_splitNl_no_nl (l : List Char) :
    ∀ p ∈ splitNl l, '\n' ∉ p := by
  induction l with
  | nil =>
    intro p hp
    simp [splitNl] at hp
    simp [hp]
  | cons c cs ih =>
    intro p hp
    unfold splitNl at hp
    by_cases hc : c = '\n'
    · simp only [hc, if_true] at hp
      rcases List.mem_cons.mp hp with h | h
      · simp [h]
      · exact ih p h
    · simp only [hc, if_false] at hp
      cases hsp : splitNl cs with
      | nil => exact absurd hsp (splitNl_ne_nil cs)
      | cons a t =>
        rw [hsp] at hp
        rcases List.mem_cons.mp hp with h | h
        · subst h
          intro hmem
          rcases List.mem_cons.mp hmem with h | h
          · exact hc h.symm
          · exact ih a (hsp ▸ List.mem_cons_self a t) h
        · exact ih p (hsp ▸ List.mem_cons_of_mem a h)

theorem splitNl_of_no_nl (l : List Char) (h : '\n' ∉ l) : splitNl l = [l] := by
  induction l with
  | nil => rfl
  | cons c cs ih =>
    have hc : c ≠ '\n' := fun hcc => h (hcc ▸ List.mem_cons_self c cs)
    have hcs : '\n' ∉ cs := fun hmem => h (List.mem_cons_of_mem c hmem)
    unfold splitNl
    simp only [hc, if_false]
    rw [ih hcs]

theorem splitNl_cons_nl (cs : List Char) :
    splitNl ('\n' :: cs) = [] :: splitNl cs := by
  show (if ('\n' : Char) = '\n' then [] :: splitNl cs else _) = [] :: splitNl cs
  rw [if_pos rfl]

theorem splitNl_cons_ne (c : Char) (cs : List Char) (hc : c ≠ '\n')
    (a : List Char) (t : List (List Char)) (h : splitNl cs = a :: t) :
    splitNl (c :: cs) = (c :: a) :: t := by
  unfold splitNl
  simp only [hc, if_false]
  rw [h]

theorem splitNl_surj (l : List Char) : ∃ a t, splitNl l = a :: t := by
  cases h : splitNl l with
  | nil => exact absurd h (splitNl_ne_nil l)
  | cons a t => exact ⟨a, t, rfl⟩

theorem splitNl_no_nl_append (b z : List Char) (hb : '\n' ∉ b) :
    splitNl (b ++ z) = joinHead b (splitNl z) := by
  induction b with
  | nil =>
    obtain ⟨h, t, hz⟩ := splitNl_surj z
    simp [joinHead, hz]
  | cons c bs ih =>
    have hc : c ≠ '\n' := fun hcc => hb (hcc ▸ List.mem_cons_self c bs)
    have hbs : '\n' ∉ bs := fun hmem => hb (List.mem_cons_of_mem c hmem)
    obtain ⟨h, t, hz⟩ := splitNl_surj z
    have hmid : splitNl (bs ++ z) = (bs ++ h) :: t := by
      rw [ih hbs, hz]
      rfl
    rw [List.cons_append, splitNl_cons_ne c (bs ++ z) hc (bs ++ h) t hmid, hz]
    simp [joinHead]

theorem getLastD_irrel {α : Type} (L : List α) (hL : L ≠ []) (d d' : α) :
    L.getLastD d = L.getLastD d' := by
  cases L with
  | nil => exact absurd rfl hL
  | cons a l => rw [List.getLastD_cons, List.getLastD_cons]

theorem getLastD_mem {α : Type} (L : List α) (hL : L ≠ []) (d : α) :
    L.getLastD d ∈ L := by
  induction L generalizing d with
  | nil => exact absurd rfl hL
  | cons a l ih =>
    rw [List.getLastD_cons]
    cases hl : l with
    | nil => simp [hl]
    | cons b t =>
      exact List.mem_cons_of_mem a (hl ▸ ih (by simp [hl]) a)

theorem splitNl_append (xs ys : List Char) :
    splitNl (xs ++ ys) =
      (splitNl xs).dropLast ++
        joinHead ((splitNl xs).getLastD []) (splitNl ys) := by
  induction xs with
  | nil =>
    obtain ⟨h, t, hy⟩ := splitNl_surj ys
    simp [splitNl, joinHead, hy, List.getLastD_cons]
  | cons c cs ih =>
    obtain ⟨a, t, hcs⟩ := splitNl_surj cs
    by_cases hc : c = '\n'
    · subst hc
      rw [List.cons_append, splitNl_cons_nl (cs ++ ys), ih, splitNl_cons_nl cs, hcs,
        List.dropLast_cons_of_ne_nil (by simp : a :: t ≠ [])]
      conv_rhs => rw [List.getLastD_cons]
      rw [List.cons_append]
    · cases t with
      | nil =>
        obtain ⟨h, u, hy⟩ := splitNl_surj ys
        have hmid : splitNl (cs ++ ys) = (a ++ h) :: u := by
          rw [ih, hcs, hy]
          simp [joinHead, List.getLastD_cons]
        rw [List.cons_append, splitNl_cons_ne c (cs ++ ys) hc (a ++ h) u hmid,
          splitNl_cons_ne c cs hc a [] hcs, hy]
        simp [joinHead, List.getLastD_cons]
      | cons b t2 =>
        have hmid : splitNl (cs ++ ys) =
            a :: ((b :: t2).dropLast ++
              joinHead ((b :: t2).getLastD []) (splitNl ys)) := by
          rw [ih, hcs, List.dropLast_cons_of_ne_nil (by simp : b :: t2 ≠ [])]
          conv_lhs => rw [List.getLastD_cons, getLastD_irrel (b :: t2) (by simp) a []]
          rw [List.cons_append]
        rw [List.cons_append,
          splitNl_cons_ne c (cs ++ ys) hc _ _ hmid,
          splitNl_cons_ne c cs hc a (b :: t2) hcs,
          List.dropLast_cons_of_ne_nil (by simp : b :: t2 ≠ [])]
        conv_rhs => rw [List.getLastD_cons, getLastD_irrel (b :: t2) (by simp) (c :: a) []]
        rw [List.cons_append]

theorem filterMap_dropLast_last {α : Type} (f : List Char → Option α)
    (L : List (List Char)) (hL : L ≠ []) :
    L.filterMap f = L.dropLast.filterMap f ++ (f (L.getLastD [])).toList := by
  have hcons : ∀ (x : List Char) (M : List (List Char)),
      List.filterMap f (x :: M) = (f x).toList ++ List.filterMap f M := by
    intro x M
    cases h : f x <;> simp [List.filterMap_cons, h]
  induction L with
  | nil => exact absurd rfl hL
  | cons a l ih =>
    cases l with
    | nil =>
      cases h : f a <;> simp [List.filterMap_cons, h, List.getLastD_cons]
    | cons b t =>
      rw [List.getLastD_cons,
        List.dropLast_cons_of_ne_nil (by simp : b :: t ≠ []),
        getLastD_irrel (b :: t) (by simp) a [],
        hcons a (b :: t), hcons a ((b :: t).dropLast), ih (by simp),
        List.append_assoc]

theorem chatStream_foldl {α : Type} (parse : List Char → Option α) :
    ∀ (reads : List (List Char)) (buf : List Char) (out : List α),
      '\n' ∉ buf →
      (reads.foldl (chatStreamStep parse) (buf, out)).2 ++
        (emitLine parse
          (reads.foldl (chatStreamStep parse) (buf, out)).1).toList =
      out ++ (splitNl (buf ++ reads.flatten)).filterMap (emitLine parse) := by
  intro reads
  induction reads with
  | nil =>
    intro buf out hbuf
    simp [splitNl_of_no_nl buf hbuf, List.filterMap_cons]
    cases h : emitLine parse buf <;> simp [h]
  | cons r rest ih =>
    intro buf out hbuf
    have hP := splitNl_ne_nil (buf ++ r)
    have hnewbuf : '\n' ∉ (splitNl (buf ++ r)).getLastD [] :=
      mem_splitNl_no_nl (buf ++ r) _ (getLastD_mem _ hP [])
    have hstep : List.foldl (chatStreamStep parse) (buf, out) (r :: rest) =
        List.foldl (chatStreamStep parse)
          ((splitNl (buf ++ r)).getLastD [],
            out ++ (splitNl (buf ++ r)).dropLast.filterMap (emitLine parse)) rest := by
      rfl
    rw [hstep, ih _ _ hnewbuf]
    rw [show (r :: rest).flatten = r ++ rest.flatten from rfl,
      ← List.append_assoc buf r rest.flatten,
      splitNl_append (buf ++ r) rest.flatten,
      splitNl_no_nl_append _ _ hnewbuf,
      List.filterMap_append, List.append_assoc]

/-! Claim theorems. -/

/-- Claim C2: for every partition of the response text into network reads,
`chatStream` yields, in order, exactly one chunk per newline-delimited line
of the full text that parses (lines are handed to the parser when non-empty
after trimming; a line the parser rejects is skipped while later lines are
still yielded): the result is the per-line filter-map over the
newline-split of the concatenated reads, independent of how the text was
cut into reads — incomplete trailing fragments are buffered, and the final
buffer gets a best-effort parse when the stream ends. -/
theorem c2_chatStream_lines {α : Type} (parse : List Char → Option α)
    (reads : List (List Char)) :
    chatStream parse reads = (splitNl reads.flatten).filterMap (emitLine parse) := by
  have h := chatStream_foldl parse reads [] [] (by simp)
  simpa [chatStream] using h

/-- Claim C1 (amended): for every non-empty role `r`, a stream of message
fragments that all carry role `r`, followed by a done marker, leaves the
final message's content equal to the concatenation of the fragments'
content deltas in arrival order (missing or empty deltas contributing the
empty string).  The non-emptiness of `r` is forced by the counterexample:
the widget tests `currentRole` for JavaScript truthiness, so the empty
role never registers as the current role. -/
theorem c1_same_role_concat (r : String) (hr : r ≠ "") (prior : List Message)
    (u : Message) (cid : Option Nat) (frags : List MessageFragment)
    (hall : ∀ f ∈ frags, f.role = r) :
    ((handleSendRun (handleSendInit prior u cid)
        (frags.map chunkOfFrag ++ [doneChunk])).msgs.getLast?).map
      Message.content = some (concatDeltas frags) := by
  have hinitfin : (handleSendInit prior u cid).finished = false := rfl
  cases frags with
  | nil =>
    have h1 : handleSendRun (handleSendInit prior u cid)
        (List.map chunkOfFrag [] ++ [doneChunk]) =
        finishDone (handleSendInit prior u cid) := by
      simp [handleSendRun, handleSendStep_done (handleSendInit prior u cid) rfl]
    rw [h1]
    have h2 : finishDone (handleSendInit prior u cid) =
        { handleSendInit prior u cid with finished := true } := by
      simp [finishDone, handleSendInit]
    rw [h2]
    simp [handleSendInit, concatDeltas, getLast?_append_pair]
  | cons f0 rest =>
    have hf0 : f0.role = r := hall f0 (List.mem_cons_self f0 rest)
    have hrest : ∀ g ∈ rest, g.role = r := fun g hg => hall g (List.mem_cons_of_mem f0 hg)
    have h1 : handleSendStep (handleSendInit prior u cid) (chunkOfFrag f0) =
        { msgs := prior ++ [u, { role := "assistant", content := optStr f0.content }],
          currentRole := some r,
          hasPlaceholder := false,
          accumulatedContent := optStr f0.content,
          accumulatedThinking := "" ++ optStr f0.thinking,
          streamConversationId := cid,
          finished := false } := by
      rw [handleSendStep_frag _ _ hinitfin]
      have hcs : contentStep f0 (handleSendInit prior u cid) =
          { msgs := prior ++ [u, { role := "assistant", content := optStr f0.content }],
            currentRole := some f0.role,
            hasPlaceholder := false,
            accumulatedContent := optStr f0.content,
            accumulatedThinking := "",
            streamConversationId := cid,
            finished := false } := by
        simp [contentStep, handleSendInit, firstFragment, setLastContent_append_pair]
      rw [hcs, appendThinking_eq]
      simp [hf0]
    have hrun : handleSendRun (handleSendInit prior u cid)
        (List.map chunkOfFrag (f0 :: rest) ++ [doneChunk]) =
        handleSendStep (handleSendRun (handleSendStep (handleSendInit prior u cid)
          (chunkOfFrag f0)) (rest.map chunkOfFrag)) doneChunk := by
      simp [handleSendRun, List.foldl_append]
    rw [hrun, h1, sameRoleRun r hr rest hrest _ rfl rfl,
      handleSendStep_done _ rfl]
    have hconcat : concatDeltas (f0 :: rest) = optStr f0.content ++ concatDeltas rest := rfl
    simp only [finishDone]
    split_ifs with hcond
    · rw [hconcat]
      simp [setLastContent_append_pair, getLast?_append_pair]
    · simp only [bne_iff_ne, ne_eq, Bool.or_eq_true, decide_eq_true_eq, not_or,
        not_not] at hcond
      have hacc : optStr f0.content ++ concatDeltas rest = "" := hcond.1
      have hc0 : optStr f0.content = "" := str_append_empty_left hacc
      rw [hconcat, hacc]
      simp [getLast?_append_pair, hc0]

/-- Witness for C1 at a concrete two-fragment assistant stream. -/
theorem c1_same_role_concat_witness :
    ((handleSendRun (handleSendInit [] exMsgA none)
        (([{ role := "assistant", content := some "Hi" },
           { role := "assistant", content := some " there" }] :
            List MessageFragment).map chunkOfFrag ++ [doneChunk])).msgs.getLast?).map
      Message.content =
      some (concatDeltas
        [{ role := "assistant", content := some "Hi" },
         { role := "assistant", content := some " there" }]) :=
  c1_same_role_concat "assistant" (by decide) [] exMsgA none
    [{ role := "assistant", content := some "Hi" },
     { role := "assistant", content := some " there" }] (by decide)

/-- Counterexample to C1 as stated: the fragments of this stream all carry
the same role, namely the empty string, with deltas "Hi" and " there", yet
the final message content is " there", not the concatenation "Hi there"
(the widget's truthiness test on `currentRole` treats the empty role as
"no current role" and restarts accumulation on every fragment). -/
theorem c1_counterexample :
    ((handleSendRun (handleSendInit [] exMsgA none)
        (([{ role := "", content := some "Hi" },
           { role := "", content := some " there" }] :
            List MessageFragment).map chunkOfFrag ++ [doneChunk])).msgs.getLast?).map
      Message.content = some " there" ∧
    concatDeltas
      [{ role := "", content := some "Hi" },
       { role := "", content := some " there" }] = "Hi there" ∧
    (" there" : String) ≠ "Hi there" := by
  refine ⟨?_, rfl, by decide⟩
  rfl

/-- Claim C3 (amended): (1) a reconciler step never shortens the message
list and never changes any message other than the last one — so a message
that has been sealed by a later append is never changed again; (2) whenever
a fragment arrives whose role differs from a *non-empty* current role, the
in-progress message is finalized with the accumulated content and a new
empty message carrying the new role is appended, with fresh accumulators
(content restarted at this fragment's delta, thinking at its thinking
delta); (3) the example stream with role sequence assistant, tool,
assistant yields three distinct sealed messages in that role order.  The
restriction to a non-empty current role is forced by the counterexample:
the truthiness test on `currentRole` skips finalization when the current
role is the empty string. -/
theorem c3_seal_on_role_change :
    (∀ (s : RecState) (c : StreamChunk),
      s.msgs.length ≤ (handleSendStep s c).msgs.length ∧
      ∀ i, i + 1 < s.msgs.length →
        (handleSendStep s c).msgs.get? i = s.msgs.get? i) ∧
    (∀ (s : RecState) (m : MessageFragment) (r : String),
      s.finished = false → s.currentRole = some r → r ≠ "" → m.role ≠ r →
      (handleSendStep s (chunkOfFrag m)).msgs =
        setLastContent s.accumulatedContent s.msgs ++
          [{ role := m.role, content := "" }] ∧
      (handleSendStep s (chunkOfFrag m)).currentRole = some m.role ∧
      (handleSendStep s (chunkOfFrag m)).accumulatedContent = optStr m.content ∧
      (handleSendStep s (chunkOfFrag m)).accumulatedThinking = optStr m.thinking) ∧
    (handleSendRun (handleSendInit [] exMsgA none)
        [chunkOfFrag { role := "assistant", content := some "Hi" },
         chunkOfFrag { role := "tool", content := some "T" },
         chunkOfFrag { role := "assistant", content := some "Done" },
         doneChunk]).msgs =
      [exMsgA, { role := "assistant", content := "Hi" },
       { role := "tool", content := "T" },
       { role := "assistant", content := "Done" }] := by
  refine ⟨handleSendStep_msgs_frame, ?_, by rfl⟩
  intro s m r hfin hrole hr hm
  have hstep : handleSendStep s (chunkOfFrag m) = appendThinking m (startNewRole m s) := by
    rw [handleSendStep_frag s m hfin]
    simp [contentStep, hrole, hr, hm]
  rw [hstep, appendThinking_eq]
  refine ⟨rfl, rfl, rfl, ?_⟩
  show (startNewRole m s).accumulatedThinking ++ optStr m.thinking = optStr m.thinking
  show "" ++ optStr m.thinking = optStr m.thinking
  exact String.empty_append _

/-- Witness for C3: the frame property and the role-change seal at the
concrete state reached after an assistant fragment "Hi", hit by a tool
fragment. -/
theorem c3_seal_on_role_change_witness :
    (⟨[exMsgA, { role := "assistant", content := "Hi" }], some "assistant",
        false, "Hi", "", none, false⟩ : RecState).msgs.length ≤
      (handleSendStep
        ⟨[exMsgA, { role := "assistant", content := "Hi" }], some "assistant",
          false, "Hi", "", none, false⟩
        (chunkOfFrag { role := "tool", content := some "T" })).msgs.length ∧
    (handleSendStep
        ⟨[exMsgA, { role := "assistant", content := "Hi" }], some "assistant",
          false, "Hi", "", none, false⟩
        (chunkOfFrag { role := "tool", content := some "T" })).msgs =
      setLastContent "Hi" [exMsgA, { role := "assistant", content := "Hi" }] ++
        [{ role := "tool", content := "" }] :=
  ⟨(c3_seal_on_role_change.1 _ _).1,
   (c3_seal_on_role_change.2.1 _ { role := "tool", content := some "T" }
      "assistant" rfl rfl (by decide) (by decide)).1⟩

/-- Counterexample to C3 as stated: with fragments of role `""` followed by
a fragment of role `"x"`, the arriving fragment's role differs from
`currentRole` (which is `""`), yet the in-progress message is *not*
finalized: its accumulated content "B" is dropped and the sealed message at
index 2 keeps content `""`. -/
theorem c3_counterexample :
    (handleSendRun (handleSendInit [] exMsgA none)
        [chunkOfFrag { role := "", content := some "A" },
         chunkOfFrag { role := "", content := some "B" }]).currentRole = some "" ∧
    (handleSendRun (handleSendInit [] exMsgA none)
        [chunkOfFrag { role := "", content := some "A" },
         chunkOfFrag { role := "", content := some "B" }]).accumulatedContent = "B" ∧
    (handleSendRun (handleSendInit [] exMsgA none)
        [chunkOfFrag { role := "", content := some "A" },
         chunkOfFrag { role := "", content := some "B" },
         chunkOfFrag { role := "x", content := some "C" },
         doneChunk]).msgs.get? 2 =
      some { role := "", content := "" } ∧
    ("" : String) ≠ "B" :=
  ⟨rfl, rfl, rfl, by decide⟩

/-- Claim C4: the code as given contradicts this claim (and its own type
declarations): the widget passes `accumulatedThinking` as a second argument
to the store's `updateLastMessage`, whose implementation accepts only
`content`, so the thinking delta reaches the in-progress accumulator but is
never written to the reconciled message.  On the failing input — a single
assistant fragment with content "a" and thinking "T" followed by done — the
accumulator ends at "T" while the final reconciled message's `thinking`
field is still absent. -/
theorem c4_thinking_never_stored :
    (handleSendRun (handleSendInit [] exMsgA none)
        [chunkOfFrag { role := "assistant", content := some "a", thinking := some "T" },
         doneChunk]).accumulatedThinking = "T" ∧
    ((handleSendRun (handleSendInit [] exMsgA none)
        [chunkOfFrag { role := "assistant", content := some "a", thinking := some "T" },
         doneChunk]).msgs.getLast?).map Message.thinking = some none ∧
    concatThinks
      [{ role := "assistant", content := some "a", thinking := some "T" }] = "T" :=
  ⟨rfl, rfl, rfl⟩

/-- Claim C6 (amended): when the transport errors mid-stream and the
pre-send message snapshot seen by the React closure is non-empty, the
reconciler overwrites the last message's content with the error text
`"Error: " + (message or default)` — discarding the accumulated partial
content rather than appending an error suffix to it — and it does not roll
the message back: the message count and every earlier message are
unchanged, and there is no retry. -/
theorem c6_error_overwrites (prior : List Message) (u : Message) (cid : Option Nat)
    (chunks : List StreamChunk) (emsg : Option String) (hp : prior ≠ []) :
    ((handleSendRunWithError prior u cid chunks emsg).msgs.getLast?).map
        Message.content = some (errText emsg) ∧
    (handleSendRunWithError prior u cid chunks emsg).msgs.length =
      (handleSendRun (handleSendInit prior u cid) chunks).msgs.length ∧
    (handleSendRunWithError prior u cid chunks emsg).msgs.dropLast =
      (handleSendRun (handleSendInit prior u cid) chunks).msgs.dropLast := by
  have hne : (handleSendRun (handleSendInit prior u cid) chunks).msgs ≠ [] := by
    have hlen := handleSendRun_length_mono chunks (handleSendInit prior u cid)
    have hinit : (handleSendInit prior u cid).msgs.length = prior.length + 2 := by
      simp [handleSendInit]
    intro h
    rw [hinit, h] at hlen
    simp at hlen
  have hsnap : prior.length > 0 := List.length_pos.mpr hp
  have hcatch : handleSendRunWithError prior u cid chunks emsg =
      { handleSendRun (handleSendInit prior u cid) chunks with
          msgs := setLastContent (errText emsg)
            (handleSendRun (handleSendInit prior u cid) chunks).msgs } := by
    unfold handleSendRunWithError handleSendCatch
    simp [hsnap]
  rw [hcatch]
  exact ⟨setLastContent_getLast_content _ _ hne, setLastContent_length _ _,
    setLastContent_dropLast _ _⟩

/-- Witness for C6 at a concrete errored stream. -/
theorem c6_error_overwrites_witness :
    ((handleSendRunWithError [exMsgB] exMsgA none
        [chunkOfFrag { role := "assistant", content := some "Hi" }]
        (some "boom")).msgs.getLast?).map Message.content =
      some (errText (some "boom")) ∧
    (handleSendRunWithError [exMsgB] exMsgA none
        [chunkOfFrag { role := "assistant", content := some "Hi" }]
        (some "boom")).msgs.length =
      (handleSendRun (handleSendInit [exMsgB] exMsgA none)
        [chunkOfFrag { role := "assistant", content := some "Hi" }]).msgs.length ∧
    (handleSendRunWithError [exMsgB] exMsgA none
        [chunkOfFrag { role := "assistant", content := some "Hi" }]
        (some "boom")).msgs.dropLast =
      (handleSendRun (handleSendInit [exMsgB] exMsgA none)
        [chunkOfFrag { role := "assistant", content := some "Hi" }]).msgs.dropLast :=
  c6_error_overwrites [exMsgB] exMsgA none
    [chunkOfFrag { role := "assistant", content := some "Hi" }]
    (some "boom") (by decide)

/-- Counterexample to C6 as stated: after the stream delivered the partial
content "Hi" and then errored, the last message's content is exactly
"Error: boom" — the accumulated partial content "Hi" was *not* finalized
and the error text is not a suffix appended to it (the result does not even
start with "Hi"). -/
theorem c6_counterexample :
    ((handleSendRunWithError [exMsgB] exMsgA none
        [chunkOfFrag { role := "assistant", content := some "Hi" }]
        (some "boom")).msgs.getLast?).map Message.content = some "Error: boom" ∧
    (handleSendRun (handleSendInit [exMsgB] exMsgA none)
        [chunkOfFrag { role := "assistant", content := some "Hi" }]).accumulatedContent
      = "Hi" ∧
    ("Error: boom").data.take ("Hi").data.length ≠ ("Hi").data :=
  ⟨rfl, rfl, by decide⟩

/-- Claim C10: on an empty message list `updateLastMessage` leaves the whole
store unchanged; on a non-empty list it replaces only the `content` field of
the last message, leaving every earlier message, the last message's other
fields and every other store field untouched; and `addMessage` appends one
element, leaving every existing message and every other field unchanged. -/
theorem c10_store_frame :
    (∀ (s : ConversationState) (c : String), s.messages = [] →
      updateLastMessage c s = s) ∧
    (∀ (s : ConversationState) (c : String) (ms : List Message) (m : Message),
      s.messages = ms ++ [m] →
      updateLastMessage c s = { s with messages := ms ++ [{ m with content := c }] }) ∧
    (∀ (s : ConversationState) (m : Message),
      addMessage m s = { s with messages := s.messages ++ [m] }) := by
  refine ⟨?_, ?_, ?_⟩
  · intro s c h
    cases s
    simp_all [updateLastMessage, setLastContent]
  · intro s c ms m h
    simp [updateLastMessage, h, setLastContent_concat]
  · intro s m
    rfl

/-- Witness for C10 at a concrete store state. -/
theorem c10_store_frame_witness :
    updateLastMessage "x" { exState with messages := [] } =
      { exState with messages := [] } ∧
    updateLastMessage "x" exState =
      { exState with messages := [{ exMsgA with content := "x" }] } ∧
    addMessage exMsgB exState = { exState with messages := [exMsgA, exMsgB] } := by
  refine ⟨c10_store_frame.1 _ "x" rfl, ?_, ?_⟩
  · have h := c10_store_frame.2.1 exState "x" [] exMsgA (by decide)
    simpa using h
  · have h := c10_store_frame.2.2 exState exMsgB
    simpa [exState, exMsgA, exMsgB] using h

/-- Claim C7: a successful `loadMoreMessages` call (not already loading,
more pages available, a current conversation set, the fetch succeeding)
prepends the fetched page to the existing window without duplicating or
dropping any prior message, advances the offset cursor by exactly the
fetched page's length, and sets `hasMoreMessages` to false exactly when the
backend's `has_more` exhaustion signal is false. -/
theorem c7_load_more_success (fetch : Nat → Nat → Nat → Option ConversationPage)
    (s : ConversationState) (conv : Conversation) (page : ConversationPage)
    (h1 : s.isLoadingMessages = false) (h2 : s.hasMoreMessages = true)
    (h3 : s.currentConversation = some conv)
    (h4 : fetch conv.id 50 s.messagesOffset = some page) :
    (loadMoreMessages fetch s).messages = page.messages ++ s.messages ∧
    (loadMoreMessages fetch s).messagesOffset =
      s.messagesOffset + page.messages.length ∧
    ((loadMoreMessages fetch s).hasMoreMessages = false ↔ page.has_more = false) ∧
    (loadMoreMessages fetch s).isLoadingMessages = false := by
  simp [loadMoreMessages, loadMoreBegin, h1, h2, h3, h4]

/-- Witness for C7 at a concrete state and backend stub. -/
theorem c7_load_more_success_witness :
    (loadMoreMessages exFetch exState).messages = exPage.messages ++ exState.messages ∧
    (loadMoreMessages exFetch exState).messagesOffset =
      exState.messagesOffset + exPage.messages.length ∧
    ((loadMoreMessages exFetch exState).hasMoreMessages = false ↔
      exPage.has_more = false) ∧
    (loadMoreMessages exFetch exState).isLoadingMessages = false :=
  c7_load_more_success exFetch exState exConv exPage rfl rfl rfl rfl

/-- Claim C8: when `isLoadingMessages` is set, or `hasMoreMessages` is
false, or no current conversation is set, `loadMoreMessages` performs no
fetch (its result is the same for every backend) and leaves the store
unchanged; and after one invocation passes the guard, a second invocation
against the resulting state cannot pass it. -/
theorem c8_load_more_guard :
    (∀ (fetch : Nat → Nat → Nat → Option ConversationPage) (s : ConversationState),
      s.isLoadingMessages = true ∨ s.hasMoreMessages = false ∨
        s.currentConversation = none →
      loadMoreMessages fetch s = s) ∧
    (∀ s : ConversationState, (loadMoreBegin s).2 = true →
      (loadMoreBegin (loadMoreBegin s).1).2 = false) := by
  constructor
  · intro fetch s h
    rcases h with h | h | h <;> simp [loadMoreMessages, loadMoreBegin, h]
  · intro s h
    by_cases hg : s.isLoadingMessages || !s.hasMoreMessages ||
        s.currentConversation.isNone
    · simp [loadMoreBegin, hg] at h
    · simp [loadMoreBegin, hg]

/-- Witness for C8: a guarded call leaves a concrete loading state alone,
and a successful guard acquisition blocks a second one. -/
theorem c8_load_more_guard_witness :
    loadMoreMessages exFetch exLoadingState = exLoadingState ∧
    (loadMoreBegin (loadMoreBegin exState).1).2 = false := by
  refine ⟨c8_load_more_guard.1 exFetch exLoadingState (Or.inl rfl), ?_⟩
  exact c8_load_more_guard.2 exState (by decide)

/-- Claim C5: on a presenter tick taken while the displayed thinking is
still shorter than the thinking target, the displayed content is left
unchanged — content characters are only revealed once thinking has fully
caught up. -/
theorem c5_thinking_before_content
    (tT tC dT dC : List Char) (h : dT.length < tT.length) :
    (typingTick tT tC dT dC).2 = dC := by
  simp [typingTick, h]

/-- Witness for C5 on concrete strings. -/
theorem c5_thinking_before_content_witness :
    (typingTick ['t', 'h'] ['c'] [] []).2 = [] :=
  c5_thinking_before_content ['t', 'h'] ['c'] [] [] (by decide)

/-- Claim C9: each presenter tick grows each displayed string by at most
the fixed step (two characters), never past its target's length, and —
whenever the targets only grow by appending — each displayed string remains
a leading segment of its target. -/
theorem c9_tick_clamped (tT tC dT dC eT eC : List Char)
    (hT : listPref dT tT) (hC : listPref dC tC) :
    (typingTick (tT ++ eT) (tC ++ eC) dT dC).1.length ≤ dT.length + 2 ∧
    (typingTick (tT ++ eT) (tC ++ eC) dT dC).2.length ≤ dC.length + 2 ∧
    (typingTick (tT ++ eT) (tC ++ eC) dT dC).1.length ≤ (tT ++ eT).length ∧
    (typingTick (tT ++ eT) (tC ++ eC) dT dC).2.length ≤ (tC ++ eC).length ∧
    listPref (typingTick (tT ++ eT) (tC ++ eC) dT dC).1 (tT ++ eT) ∧
    listPref (typingTick (tT ++ eT) (tC ++ eC) dT dC).2 (tC ++ eC) := by
  have hTle : dT.length ≤ (tT ++ eT).length := by
    have := listPref_length_le hT
    simp only [List.length_append]
    omega
  have hCle : dC.length ≤ (tC ++ eC).length := by
    have := listPref_length_le hC
    simp only [List.length_append]
    omega
  unfold typingTick
  split_ifs with h1 h2
  · refine ⟨?_, Nat.le_add_right _ _, ?_, hCle, listPref_take _ _,
      listPref_append_right _ hC⟩
    · show ((tT ++ eT).take (dT.length + 2)).length ≤ dT.length + 2
      rw [List.length_take]
      exact Nat.min_le_left _ _
    · show ((tT ++ eT).take (dT.length + 2)).length ≤ (tT ++ eT).length
      rw [List.length_take]
      exact Nat.min_le_right _ _
  · refine ⟨Nat.le_add_right _ _, ?_, hTle, ?_, listPref_append_right _ hT,
      listPref_take _ _⟩
    · show ((tC ++ eC).take (dC.length + 2)).length ≤ dC.length + 2
      rw [List.length_take]
      exact Nat.min_le_left _ _
    · show ((tC ++ eC).take (dC.length + 2)).length ≤ (tC ++ eC).length
      rw [List.length_take]
      exact Nat.min_le_right _ _
  · exact ⟨Nat.le_add_right _ _, Nat.le_add_right _ _, hTle, hCle,
      listPref_append_right _ hT, listPref_append_right _ hC⟩

/-- Witness for C9 on concrete strings. -/
theorem c9_tick_clamped_witness :
    (typingTick (['a', 'b'] ++ ['c']) (['x'] ++ []) ['a'] []).1.length ≤ 3 ∧
    (typingTick (['a', 'b'] ++ ['c']) (['x'] ++ []) ['a'] []).2.length ≤ 2 ∧
    (typingTick (['a', 'b'] ++ ['c']) (['x'] ++ []) ['a'] []).1.length ≤
      (['a', 'b'] ++ ['c']).length ∧
    (typingTick (['a', 'b'] ++ ['c']) (['x'] ++ []) ['a'] []).2.length ≤
      (['x'] ++ []).length ∧
    listPref (typingTick (['a', 'b'] ++ ['c']) (['x'] ++ []) ['a'] []).1
      (['a', 'b'] ++ ['c']) ∧
    listPref (typingTick (['a', 'b'] ++ ['c']) (['x'] ++ []) ['a'] []).2
      (['x'] ++ []) :=
  c9_tick_clamped ['a', 'b'] ['x'] ['a'] [] ['c'] [] (by decide) (by decide)

end Kurisu
